import Mathlib

/-!
Verification of the sliding-window measurement tracker of
`src/MeasurementTracker.h` and of the history serialization contract
consumed by `src/html.h`.

Modelling conventions:
* C++ `float` and `double` values are modelled as exact rationals (`ℚ`);
  the code performs only comparisons, additions and one division, and the
  properties under scrutiny are about which samples enter the statistics,
  not about rounding.
* The heap array `float* data` is modelled as a total function
  `ℕ → Option ℚ`; a cell holds `none` while the corresponding memory is
  still uninitialized.  Reading a cell goes through `Option.getD 0`: the
  default models an indeterminate value and is proved never to be
  observed for trackers of positive capacity.
* The uninitialized public fields `current`, `min`, `max`, `average` are
  `Option ℚ`, `none` before the first `track()` call.
* `new float[n]` with a negative extent raises `std::bad_array_new_length`,
  so the constructor is modelled as returning `Option MeasurementTracker`,
  `none` exactly on negative sizes.
-/

namespace SensorAmbient

/-- State of the C++ class `MeasurementTracker`: backing array, its
allocated size, the write cursor, the wrap flag, and the four public
statistics fields. -/
structure MeasurementTracker where
  data : ℕ → Option ℚ
  dataSize : ℕ
  cursor : ℕ
  dataFull : Bool
  current : Option ℚ
  min : Option ℚ
  max : Option ℚ
  average : Option ℚ

/-- The state established by the constructor body for a nonnegative
requested size: fresh (uninitialized) array, `dataSize` recorded,
`dataFull = false`, `cursor = 0`. -/
def freshState (n : ℕ) : MeasurementTracker :=
  { data := fun _ => none
    dataSize := n
    cursor := 0
    dataFull := false
    current := none
    min := none
    max := none
    average := none }

/-- The constructor `MeasurementTracker(int dataArraySize)`: it performs no
validation of its own; `new float[n]` throws for a negative extent (modelled
as `none`) and otherwise the fields are initialized as in the source. -/
def construct (dataArraySize : ℤ) : Option MeasurementTracker :=
  if dataArraySize < 0 then none else some (freshState dataArraySize.toNat)

/-- `MeasurementTracker::track`: store the data point at the cursor, advance
the cursor with wraparound, then rescan the valid prefix of the array to
recompute `min`, `max` and `average`.  The scan seeds all three statistics
from `data[0]` and then folds over indices `1 ≤ i < j` exactly as the
`for` loop does. -/
def track (t : MeasurementTracker) (dataPoint : ℚ) : MeasurementTracker :=
  let data : ℕ → Option ℚ := fun i => if i = t.cursor then some dataPoint else t.data i
  let cursor : ℕ := if t.dataSize ≤ t.cursor + 1 then 0 else t.cursor + 1
  let dataFull : Bool := if t.dataSize ≤ t.cursor + 1 then true else t.dataFull
  let j : ℕ := if dataFull then t.dataSize else cursor
  let d0 : ℚ := (data 0).getD 0
  let minv : ℚ := (List.range' 1 (j - 1)).foldl (fun m i => min m ((data i).getD 0)) d0
  let maxv : ℚ := (List.range' 1 (j - 1)).foldl (fun m i => max m ((data i).getD 0)) d0
  let sum : ℚ := (List.range' 1 (j - 1)).foldl (fun s i => s + (data i).getD 0) d0
  { data := data
    dataSize := t.dataSize
    cursor := cursor
    dataFull := dataFull
    current := some dataPoint
    min := some minv
    max := some maxv
    average := some (sum / (j : ℚ)) }

/-- Iterated ingestion: `track` called once per element of `vs`, in order. -/
def trackAll (t : MeasurementTracker) (vs : List ℚ) : MeasurementTracker :=
  vs.foldl track t

/-- The number of array cells scanned by the statistics loop of `track`,
read off a post-`track` state: `dataSize` if the array is full, else the
cursor (the variable `j` in the source). -/
def scanCount (t : MeasurementTracker) : ℕ :=
  if t.dataFull then t.dataSize else t.cursor

/-- The values of the valid cells in physical array order, exactly the
cells the statistics loop of `track` visits. -/
def physList (t : MeasurementTracker) : List ℚ :=
  (List.range (scanCount t)).map fun i => (t.data i).getD 0

/-- The logical sliding window in chronological order: when full, the ring
read starting at the cursor (the oldest cell); otherwise the valid prefix. -/
def window (t : MeasurementTracker) : List ℚ :=
  if t.dataFull then
    (List.range t.dataSize).map fun k => (t.data ((t.cursor + k) % t.dataSize)).getD 0
  else physList t

/-- The last `n` elements of a list (all of it when `n` exceeds the
length). -/
def lastN (n : ℕ) (l : List ℚ) : List ℚ :=
  l.drop (l.length - n)

/-- The array indices accessed by one `track` call on state `t`: the write
at the pre-increment cursor, the three seed reads of `data[0]`, and the
loop reads `data[i]` for `1 ≤ i < j`, with `j` as computed in the source. -/
def trackTouched (t : MeasurementTracker) : List ℕ :=
  let cursor : ℕ := if t.dataSize ≤ t.cursor + 1 then 0 else t.cursor + 1
  let dataFull : Bool := if t.dataSize ≤ t.cursor + 1 then true else t.dataFull
  let j : ℕ := if dataFull then t.dataSize else cursor
  t.cursor :: 0 :: List.range' 1 (j - 1)

/-- Modelled from the spec: the multi-stream history store of section 3 of
the specification, whose implementation file is not part of `src/` (only
its browser-side consumer in `src/html.h` is).  Per-stream ring buffers of
numeric values plus a time stream, a single shared write index, and one
`filled` flag. -/
structure HistoryStore where
  streamCount : ℕ
  historyCapacity : ℕ
  streams : ℕ → ℕ → Option ℤ
  timeStream : ℕ → Option ℤ
  writeIndex : ℕ
  filled : Bool

/-- Modelled from the spec: a freshly allocated history store with the
given stream count and capacity, empty buffers, write index 0, not yet
filled. -/
def freshStore (sc cap : ℕ) : HistoryStore :=
  { streamCount := sc
    historyCapacity := cap
    streams := fun _ _ => none
    timeStream := fun _ => none
    writeIndex := 0
    filled := false }

/-- Modelled from the spec: `snapshot(values, timestamp)` appends one
correlated row across all streams at the shared write index, advances the
index modulo the capacity and sets `filled` on wraparound; a value vector
whose length differs from `streamCount` is rejected with an explicit error
and the buffer is left unmodified. -/
def snapshot (h : HistoryStore) (values : List ℤ) (timestamp : ℤ) : Option HistoryStore :=
  if values.length = h.streamCount then
    some { h with
      streams := fun s i =>
        if s < h.streamCount ∧ i = h.writeIndex then values[s]? else h.streams s i
      timeStream := fun i => if i = h.writeIndex then some timestamp else h.timeStream i
      writeIndex := if h.historyCapacity ≤ h.writeIndex + 1 then 0 else h.writeIndex + 1
      filled := if h.historyCapacity ≤ h.writeIndex + 1 then true else h.filled }
  else none

/-- Modelled from the spec: one stream of the serialized output, its valid
values in chronological order (ring read starting at the oldest slot), each
token followed by a comma. -/
def serializeStream (h : HistoryStore) (f : ℕ → Option ℤ) : String :=
  let len : ℕ := if h.filled then h.historyCapacity else h.writeIndex
  let start : ℕ := if h.filled then h.writeIndex else 0
  String.join ((List.range len).map fun k =>
    toString ((f ((start + k) % h.historyCapacity)).getD 0) ++ ",")

/-- Modelled from the spec: `serialize()` emits the flat stream-major text,
all values of stream 0 oldest-to-newest, then stream 1, and so on, with the
time stream last and a trailing comma after the final token. -/
def serialize (h : HistoryStore) : String :=
  String.join ((List.range h.streamCount).map fun s => serializeStream h (h.streams s))
    ++ serializeStream h h.timeStream

/-- Splitting a character stream at commas into textual tokens, the
accumulator holding the (reversed) characters of the token in progress. -/
def splitTokens : List Char → List Char → List String
  | [], acc => [String.mk acc.reverse]
  | c :: cs, acc =>
    if c = ',' then String.mk acc.reverse :: splitTokens cs [] else splitTokens cs (c :: acc)

/-- The consumer side as in `updateData` of `src/html.h`: drop the trailing
comma (the `slice(0,-1)`), split on commas, and de-interleave the flat
token list into `streamCount` equal-length per-stream arrays. -/
def deinterleave (s : String) (streamCount : ℕ) : List (List String) :=
  let tokens := splitTokens s.toList.dropLast []
  let len := tokens.length / streamCount
  (List.range streamCount).map fun i => (tokens.drop (i * len)).take len

instance : Std.Antisymm ((· : ℚ) ≤ ·) :=
  ⟨fun h₁ h₂ => le_antisymm h₁ h₂⟩

/-! Helper lemmas about folds, permutations and the scan shape. -/

theorem foldl_add_eq (l : List ℚ) (a : ℚ) :
    l.foldl (fun s x => s + x) a = a + l.sum := by
  induction l generalizing a with
  | nil => simp
  | cons x xs ih => simp [ih, add_assoc]

theorem min?_congr_perm {l₁ l₂ : List ℚ} (h : l₁.Perm l₂) : l₁.min? = l₂.min? := by
  cases e : l₁.min? with
  | none =>
    rw [List.min?_eq_none_iff] at e
    subst e
    rw [h.symm.eq_nil]
    rfl
  | some a =>
    rw [List.min?_eq_some_iff (fun a => le_refl a) min_choice
      (fun _ _ _ => le_min_iff)] at e
    symm
    rw [List.min?_eq_some_iff (fun a => le_refl a) min_choice
      (fun _ _ _ => le_min_iff)]
    exact ⟨h.mem_iff.mp e.1, fun b hb => e.2 b (h.mem_iff.mpr hb)⟩

theorem max?_congr_perm {l₁ l₂ : List ℚ} (h : l₁.Perm l₂) : l₁.max? = l₂.max? := by
  cases e : l₁.max? with
  | none =>
    rw [List.max?_eq_none_iff] at e
    subst e
    rw [h.symm.eq_nil]
    rfl
  | some a =>
    rw [List.max?_eq_some_iff (fun a => le_refl a) max_choice
      (fun _ _ _ => max_le_iff)] at e
    symm
    rw [List.max?_eq_some_iff (fun a => le_refl a) max_choice
      (fun _ _ _ => max_le_iff)]
    exact ⟨h.mem_iff.mp e.1, fun b hb => e.2 b (h.mem_iff.mpr hb)⟩

/-! Projection lemmas reading the components of a post-`track` state
directly off the definition. -/

theorem track_dataSize (t : MeasurementTracker) (v : ℚ) :
    (track t v).dataSize = t.dataSize := rfl

theorem track_data (t : MeasurementTracker) (v : ℚ) :
    (track t v).data = fun i => if i = t.cursor then some v else t.data i := rfl

theorem track_current_eq (t : MeasurementTracker) (v : ℚ) :
    (track t v).current = some v := rfl

theorem track_cursor (t : MeasurementTracker) (v : ℚ) :
    (track t v).cursor = if t.dataSize ≤ t.cursor + 1 then 0 else t.cursor + 1 := rfl

theorem track_dataFull (t : MeasurementTracker) (v : ℚ) :
    (track t v).dataFull = if t.dataSize ≤ t.cursor + 1 then true else t.dataFull := rfl

theorem track_min_def (t : MeasurementTracker) (v : ℚ) :
    (track t v).min = some ((List.range' 1 (scanCount (track t v) - 1)).foldl
      (fun m i => min m (((track t v).data i).getD 0)) (((track t v).data 0).getD 0)) := rfl

theorem track_max_def (t : MeasurementTracker) (v : ℚ) :
    (track t v).max = some ((List.range' 1 (scanCount (track t v) - 1)).foldl
      (fun m i => max m (((track t v).data i).getD 0)) (((track t v).data 0).getD 0)) := rfl

theorem track_average_def (t : MeasurementTracker) (v : ℚ) :
    (track t v).average = some (((List.range' 1 (scanCount (track t v) - 1)).foldl
      (fun s i => s + ((track t v).data i).getD 0) (((track t v).data 0).getD 0)) /
      (scanCount (track t v) : ℚ)) := rfl

theorem scanCount_track_pos (t : MeasurementTracker) (v : ℚ) (hc : 1 ≤ t.dataSize) :
    1 ≤ scanCount (track t v) := by
  unfold scanCount
  rw [track_dataFull, track_cursor, track_dataSize]
  by_cases h : t.dataSize ≤ t.cursor + 1
  · simp [h]
    omega
  · cases hf : t.dataFull
    · simp [h, hf]
    · simp [h, hf]
      omega

theorem length_physList (t : MeasurementTracker) : (physList t).length = scanCount t := by
  simp [physList]

theorem foldl_add_map (g : ℕ → ℚ) (l : List ℕ) (a : ℚ) :
    l.foldl (fun s i => s + g i) a = a + (l.map g).sum := by
  induction l generalizing a with
  | nil => simp
  | cons x xs ih => simp [ih, add_assoc]

theorem track_min_eq (t : MeasurementTracker) (v : ℚ) (hc : 1 ≤ t.dataSize) :
    (track t v).min = (physList (track t v)).min? := by
  obtain ⟨k, hk⟩ : ∃ k, scanCount (track t v) = k + 1 :=
    ⟨scanCount (track t v) - 1, by have := scanCount_track_pos t v hc; omega⟩
  rw [track_min_def]
  simp only [physList, hk, Nat.add_sub_cancel, List.range_eq_range', List.range'_succ,
    List.map_cons, List.min?_cons', List.foldl_map]

theorem track_max_eq (t : MeasurementTracker) (v : ℚ) (hc : 1 ≤ t.dataSize) :
    (track t v).max = (physList (track t v)).max? := by
  obtain ⟨k, hk⟩ : ∃ k, scanCount (track t v) = k + 1 :=
    ⟨scanCount (track t v) - 1, by have := scanCount_track_pos t v hc; omega⟩
  rw [track_max_def]
  simp only [physList, hk, Nat.add_sub_cancel, List.range_eq_range', List.range'_succ,
    List.map_cons, List.max?_cons', List.foldl_map]

theorem track_average_eq (t : MeasurementTracker) (v : ℚ) (hc : 1 ≤ t.dataSize) :
    (track t v).average =
      some ((physList (track t v)).sum / ((physList (track t v)).length : ℚ)) := by
  obtain ⟨k, hk⟩ : ∃ k, scanCount (track t v) = k + 1 :=
    ⟨scanCount (track t v) - 1, by have := scanCount_track_pos t v hc; omega⟩
  rw [track_average_def]
  simp only [physList, hk, Nat.add_sub_cancel, List.range_eq_range', List.range'_succ,
    List.map_cons, List.length_cons, List.length_map, List.length_range', List.sum_cons,
    foldl_add_map]

theorem window_eq_rotate (t : MeasurementTracker) (h : t.dataFull = true) :
    window t = (physList t).rotate t.cursor := by
  have hs : scanCount t = t.dataSize := by simp [scanCount, h]
  have hl : (physList t).length = t.dataSize := by rw [length_physList, hs]
  apply List.ext_getElem
  · simp [window, h, List.length_rotate, hl]
  · intro n h₁ h₂
    rw [List.getElem_rotate]
    simp only [window, h, if_true, List.getElem_map, List.getElem_range, physList,
      List.length_map, List.length_range, hs, Nat.add_comm n t.cursor]

theorem window_perm_physList (t : MeasurementTracker) : (window t).Perm (physList t) := by
  cases h : t.dataFull
  · have : window t = physList t := by simp [window, h]
    rw [this]
  · rw [window_eq_rotate t h]
    exact List.rotate_perm _ _

theorem track_stats (t : MeasurementTracker) (v : ℚ) (hc : 1 ≤ t.dataSize) :
    (track t v).min = (window (track t v)).min? ∧
    (track t v).max = (window (track t v)).max? ∧
    (track t v).average =
      some ((window (track t v)).sum / ((window (track t v)).length : ℚ)) := by
  have hperm := window_perm_physList (track t v)
  refine ⟨?_, ?_, ?_⟩
  · rw [track_min_eq t v hc, min?_congr_perm hperm]
  · rw [track_max_eq t v hc, max?_congr_perm hperm]
  · rw [track_average_eq t v hc, hperm.sum_eq, hperm.length_eq]

theorem track_cursor_mod (t : MeasurementTracker) (v : ℚ) (hcur : t.cursor < t.dataSize) :
    (track t v).cursor = (t.cursor + 1) % t.dataSize := by
  rw [track_cursor]
  by_cases h : t.dataSize ≤ t.cursor + 1
  · rw [if_pos h]
    have he : t.cursor + 1 = t.dataSize := by omega
    rw [he, Nat.mod_self]
  · rw [if_neg h, Nat.mod_eq_of_lt (by omega)]

theorem track_dataFull_eq (t : MeasurementTracker) (v : ℚ) (hcur : t.cursor < t.dataSize) :
    (track t v).dataFull = (t.dataFull || decide (t.cursor + 1 = t.dataSize)) := by
  rw [track_dataFull]
  by_cases h : t.dataSize ≤ t.cursor + 1
  · rw [if_pos h]
    have he : t.cursor + 1 = t.dataSize := by omega
    simp [he]
  · rw [if_neg h]
    have he : ¬ t.cursor + 1 = t.dataSize := by omega
    simp [he]

theorem window_step_notfull (t : MeasurementTracker) (v : ℚ)
    (hcur : t.cursor < t.dataSize) (hf : t.dataFull = false) :
    window (track t v) = window t ++ [v] := by
  have hwt : window t = (List.range t.cursor).map fun i => (t.data i).getD 0 := by
    simp [window, hf, physList, scanCount]
  have hlen : (window (track t v)).length = t.cursor + 1 := by
    by_cases h : t.dataSize ≤ t.cursor + 1
    · have hfull : (track t v).dataFull = true := by rw [track_dataFull, if_pos h]
      simp [window, hfull, track_dataSize]
      omega
    · have hfull : (track t v).dataFull = false := by rw [track_dataFull, if_neg h, hf]
      simp [window, hfull, physList, scanCount, track_cursor, if_neg h]
  apply List.ext_getElem
  · rw [hlen, hwt]
    simp
  · intro n h₁ h₂
    have hn : n < t.cursor + 1 := by rw [hlen] at h₁; exact h₁
    have hLHS : (window (track t v))[n] = ((track t v).data n).getD 0 := by
      by_cases h : t.dataSize ≤ t.cursor + 1
      · have hfull : (track t v).dataFull = true := by rw [track_dataFull, if_pos h]
        have hcur0 : (track t v).cursor = 0 := by rw [track_cursor, if_pos h]
        simp only [window, hfull, if_true, List.getElem_map, List.getElem_range, hcur0,
          track_dataSize, Nat.zero_add]
        rw [Nat.mod_eq_of_lt (by omega)]
      · have hfull : (track t v).dataFull = false := by rw [track_dataFull, if_neg h, hf]
        simp only [window, hfull, Bool.false_eq_true, if_false, physList, scanCount,
          List.getElem_map, List.getElem_range]
    rw [hLHS, track_data]
    by_cases hnp : n = t.cursor
    · subst hnp
      simp only [if_pos rfl, Option.getD_some]
      rw [List.getElem_append_right (by rw [hwt]; simp)]
      simp [hwt]
    · have hnlt : n < t.cursor := by omega
      simp only [if_neg hnp]
      rw [List.getElem_append_left (by rw [hwt]; simpa using hnlt)]
      simp [hwt]

theorem window_step_full (t : MeasurementTracker) (v : ℚ) (hc : 1 ≤ t.dataSize)
    (hcur : t.cursor < t.dataSize) (hf : t.dataFull = true) :
    window (track t v) = (window t).drop 1 ++ [v] := by
  have hfull : (track t v).dataFull = true := by
    rw [track_dataFull]
    by_cases h : t.dataSize ≤ t.cursor + 1 <;> simp [h, hf]
  have hcm : (track t v).cursor = (t.cursor + 1) % t.dataSize := track_cursor_mod t v hcur
  have hwt : window t =
      (List.range t.dataSize).map fun k => (t.data ((t.cursor + k) % t.dataSize)).getD 0 := by
    simp [window, hf]
  have hwt2 : window (track t v) = (List.range t.dataSize).map
      fun k => ((track t v).data (((t.cursor + 1) % t.dataSize + k) % t.dataSize)).getD 0 := by
    simp [window, hfull, track_dataSize, hcm]
  apply List.ext_getElem
  · rw [hwt2, hwt]
    simp
    omega
  · intro n h₁ h₂
    have hn : n < t.dataSize := by rw [hwt2] at h₁; simpa using h₁
    simp only [hwt2, List.getElem_map, List.getElem_range]
    rw [Nat.mod_add_mod]
    by_cases hlast : n = t.dataSize - 1
    · have hidx : (t.cursor + 1 + n) % t.dataSize = t.cursor := by
        subst hlast
        have he : t.cursor + 1 + (t.dataSize - 1) = t.cursor + t.dataSize := by omega
        rw [he, Nat.add_mod_right, Nat.mod_eq_of_lt hcur]
      rw [hidx, track_data]
      simp only [if_pos rfl, Option.getD_some]
      rw [List.getElem_append_right]
      · simp
      · rw [List.length_drop, hwt]
        simp
        omega
    · have hne : (t.cursor + 1 + n) % t.dataSize ≠ t.cursor := by
        rcases Nat.lt_or_ge (t.cursor + 1 + n) t.dataSize with hlt | hge
        · rw [Nat.mod_eq_of_lt hlt]
          omega
        · rw [Nat.mod_eq_sub_mod hge, Nat.mod_eq_of_lt (by omega)]
          omega
      rw [track_data]
      simp only [if_neg hne]
      rw [List.getElem_append_left (by rw [List.length_drop, hwt]; simp; omega)]
      rw [List.getElem_drop]
      simp only [hwt, List.getElem_map, List.getElem_range]
      rw [Nat.add_assoc]

theorem trackAll_append_single (t : MeasurementTracker) (vs : List ℚ) (v : ℚ) :
    trackAll t (vs ++ [v]) = track (trackAll t vs) v := by
  simp [trackAll, List.foldl_append]

/-- Full characterization of the state reached from a fresh tracker of
positive capacity `c` after ingesting the sample list `vs`: array size,
cursor position, fullness flag, the chronological window (the last
`min vs.length c` samples), and which array cells have been written. -/
theorem trackAll_spec (c : ℕ) (hc : 1 ≤ c) (vs : List ℚ) :
    (trackAll (freshState c) vs).dataSize = c ∧
    (trackAll (freshState c) vs).cursor = vs.length % c ∧
    (trackAll (freshState c) vs).dataFull = decide (c ≤ vs.length) ∧
    window (trackAll (freshState c) vs) = lastN (min vs.length c) vs ∧
    (∀ i : ℕ, ((trackAll (freshState c) vs).data i).isSome = true ↔ i < min vs.length c) := by
  induction vs using List.reverseRecOn with
  | nil =>
    have h0 : ¬ c ≤ 0 := by omega
    refine ⟨rfl, by simp [trackAll, freshState], by simp [trackAll, freshState, h0], ?_, ?_⟩
    · simp [trackAll, window, physList, scanCount, freshState, lastN]
    · intro i
      simp [trackAll, freshState]
  | append_singleton vs v ih =>
    obtain ⟨h1, h2, h3, h4, h5⟩ := ih
    have hcur : (trackAll (freshState c) vs).cursor < (trackAll (freshState c) vs).dataSize := by
      rw [h1, h2]
      exact Nat.mod_lt _ (by omega)
    have hc1 : 1 ≤ (trackAll (freshState c) vs).dataSize := by rw [h1]; exact hc
    have hlen : (vs ++ [v]).length = vs.length + 1 := by simp
    rw [trackAll_append_single]
    refine ⟨?_, ?_, ?_, ?_, ?_⟩
    · rw [track_dataSize, h1]
    · rw [track_cursor_mod _ _ hcur, h1, h2, hlen, Nat.mod_add_mod]
    · rw [track_dataFull_eq _ _ hcur, h1, h2, h3, hlen]
      by_cases hcN : c ≤ vs.length
      · have ha : decide (c ≤ vs.length) = true := by simp [hcN]
        have hb : decide (c ≤ vs.length + 1) = true := by simp; omega
        rw [ha, hb, Bool.true_or]
      · have hNc : vs.length < c := by omega
        have hmod : vs.length % c = vs.length := Nat.mod_eq_of_lt hNc
        have ha : decide (c ≤ vs.length) = false := by simp; omega
        rw [ha, Bool.false_or, hmod]
        by_cases he : vs.length + 1 = c
        · have hb : c ≤ vs.length + 1 := by omega
          simp [he, hb]
        · have hb : ¬ c ≤ vs.length + 1 := by omega
          simp [he, hb]
    · rw [hlen]
      by_cases hcN : c ≤ vs.length
      · have hf : (trackAll (freshState c) vs).dataFull = true := by rw [h3]; simp [hcN]
        rw [window_step_full _ _ hc1 hcur hf, h4]
        rw [min_eq_right hcN, min_eq_right (by omega)]
        unfold lastN
        rw [List.drop_drop, List.length_append]
        have hd : vs.length - c + 1 = (vs ++ [v]).length - c := by simp; omega
        rw [List.length_append] at hd
        rw [hd, List.drop_append_of_le_length (by simp; omega)]
      · have hf : (trackAll (freshState c) vs).dataFull = false := by
          rw [h3]
          simp
          omega
        rw [window_step_notfull _ _ hcur hf, h4]
        rw [min_eq_left (by omega), min_eq_left (by omega)]
        unfold lastN
        simp
    · intro i
      rw [hlen]
      simp only [track_data]
      by_cases hi : i = (trackAll (freshState c) vs).cursor
      · rw [if_pos hi]
        simp only [Option.isSome_some, true_iff]
        rw [hi, h2]
        rcases Nat.lt_or_ge vs.length c with hNc | hcN
        · rw [Nat.mod_eq_of_lt hNc, min_eq_left (by omega)]
          omega
        · rw [min_eq_right (by omega)]
          exact Nat.mod_lt _ (by omega)
      · rw [if_neg hi]
        rw [h5 i]
        have hint : i ≠ vs.length % c := by rw [← h2]; exact hi
        rcases Nat.lt_or_ge vs.length c with hNc | hcN
        · rw [Nat.mod_eq_of_lt hNc] at hint
          rw [min_eq_left (by omega), min_eq_left (by omega)]
          omega
        · rw [min_eq_right hcN, min_eq_right (by omega)]

theorem trackTouched_eq (t : MeasurementTracker) :
    trackTouched t = t.cursor :: 0 :: List.range' 1 (scanCount (track t 0) - 1) := rfl

theorem scanCount_track_le (t : MeasurementTracker) (v : ℚ) :
    scanCount (track t v) ≤ t.dataSize := by
  unfold scanCount
  rw [track_dataFull, track_cursor, track_dataSize]
  by_cases h : t.dataSize ≤ t.cursor + 1
  · simp [h]
  · cases hf : t.dataFull
    · simp [h, hf]
      omega
    · simp [h, hf]

/-- Statistics of a tracker of positive capacity after at least one
ingest: `min`, `max` and `average` are the minimum, maximum and mean of
the chronological window. -/
theorem trackAll_stats (c : ℕ) (hc : 1 ≤ c) (vs : List ℚ) (hne : vs ≠ []) :
    (trackAll (freshState c) vs).min = (window (trackAll (freshState c) vs)).min? ∧
    (trackAll (freshState c) vs).max = (window (trackAll (freshState c) vs)).max? ∧
    (trackAll (freshState c) vs).average =
      some ((window (trackAll (freshState c) vs)).sum /
        ((window (trackAll (freshState c) vs)).length : ℚ)) := by
  rcases List.eq_nil_or_concat vs with rfl | ⟨vs2, v, rfl⟩
  · exact absurd rfl hne
  · rw [List.concat_eq_append, trackAll_append_single]
    exact track_stats _ v (by rw [(trackAll_spec c hc vs2).1]; exact hc)

/-! Claim theorems. -/

/-- C1: for every capacity `c ≥ 1` and every sample sequence strictly
longer than `c`, after the last `track()` the `min`, `max` and `average`
fields are exactly the minimum, maximum and mean of the last `c` samples;
no evicted sample influences any of the three statistics. -/
theorem claim_C1 (c : ℕ) (hc : 1 ≤ c) (vs : List ℚ) (hlen : c < vs.length) :
    (trackAll (freshState c) vs).min = (lastN c vs).min? ∧
    (trackAll (freshState c) vs).max = (lastN c vs).max? ∧
    (trackAll (freshState c) vs).average = some ((lastN c vs).sum / (c : ℚ)) := by
  have hne : vs ≠ [] := by
    intro h
    rw [h] at hlen
    simp at hlen
  obtain ⟨hmin, hmax, havg⟩ := trackAll_stats c hc vs hne
  have hwin : window (trackAll (freshState c) vs) = lastN c vs := by
    rw [(trackAll_spec c hc vs).2.2.2.1, min_eq_right (le_of_lt hlen)]
  have hlenw : (lastN c vs).length = c := by
    unfold lastN
    rw [List.length_drop]
    omega
  refine ⟨by rw [hmin, hwin], by rw [hmax, hwin], by rw [havg, hwin, hlenw]⟩

theorem claim_C1_witness :
    ((1 : ℕ) ≤ 1 ∧ 1 < ([3, 5] : List ℚ).length) ∧
    ((trackAll (freshState 1) [3, 5]).min = (lastN 1 [3, 5]).min? ∧
     (trackAll (freshState 1) [3, 5]).max = (lastN 1 [3, 5]).max? ∧
     (trackAll (freshState 1) [3, 5]).average = some ((lastN 1 [3, 5]).sum / (1 : ℚ))) :=
  ⟨⟨by decide, by decide⟩, claim_C1 1 (by decide) [3, 5] (by decide)⟩

/-- C2: for every capacity `c ≥ 1` and every nonempty sequence of at most
`c` samples, after the last `track()` the `min`, `max` and `average`
fields are exactly the minimum, maximum and mean of those samples. -/
theorem claim_C2 (c : ℕ) (hc : 1 ≤ c) (vs : List ℚ) (hne : vs ≠ [])
    (hlen : vs.length ≤ c) :
    (trackAll (freshState c) vs).min = vs.min? ∧
    (trackAll (freshState c) vs).max = vs.max? ∧
    (trackAll (freshState c) vs).average = some (vs.sum / (vs.length : ℚ)) := by
  obtain ⟨hmin, hmax, havg⟩ := trackAll_stats c hc vs hne
  have hwin : window (trackAll (freshState c) vs) = vs := by
    rw [(trackAll_spec c hc vs).2.2.2.1, min_eq_left hlen]
    unfold lastN
    simp
  refine ⟨by rw [hmin, hwin], by rw [hmax, hwin], by rw [havg, hwin]⟩

theorem claim_C2_witness :
    ((1 : ℕ) ≤ 3 ∧ ([2, 1] : List ℚ) ≠ [] ∧ ([2, 1] : List ℚ).length ≤ 3) ∧
    ((trackAll (freshState 3) [2, 1]).min = ([2, 1] : List ℚ).min? ∧
     (trackAll (freshState 3) [2, 1]).max = ([2, 1] : List ℚ).max? ∧
     (trackAll (freshState 3) [2, 1]).average =
       some (([2, 1] : List ℚ).sum / (([2, 1] : List ℚ).length : ℚ))) :=
  ⟨⟨by decide, by decide, by decide⟩, claim_C2 3 (by decide) [2, 1] (by decide) (by decide)⟩

/-- C3 (counterexample): constructing a tracker with capacity 0 does not
fail fast: the constructor performs no validation and yields a tracker. -/
theorem claim_C3_counterexample : (construct 0).isSome = true := rfl

/-- C3 (amended): a negative capacity does fault at construction (the
array allocation throws), but a zero capacity is accepted silently with no
explicit error, and the violation is deferred to the first `track()` call,
which accesses index 0 of the zero-length array. -/
theorem claim_C3 (n : ℤ) (hneg : n < 0) :
    construct n = none ∧
    (construct 0).isSome = true ∧
    0 ∈ trackTouched (freshState 0) ∧ (freshState 0).dataSize = 0 := by
  refine ⟨by simp [construct, hneg], rfl, by decide, rfl⟩

theorem claim_C3_witness :
    ((-1 : ℤ) < 0) ∧
    (construct (-1) = none ∧
     (construct 0).isSome = true ∧
     0 ∈ trackTouched (freshState 0) ∧ (freshState 0).dataSize = 0) :=
  ⟨by decide, claim_C3 (-1) (by decide)⟩

/-- C4: after every `track(v)` call, on any state whatsoever, the `current`
field holds exactly `v`. -/
theorem claim_C4 (t : MeasurementTracker) (v : ℚ) : (track t v).current = some v := rfl

/-- C5: for every capacity greater than 1, a single `track(v)` on a fresh
tracker reports `min = max = average = current = v`, because the scan seeds
`min`/`max` from the first valid window element and scans only the valid
window. -/
theorem claim_C5 (c : ℕ) (hc : 1 < c) (v : ℚ) :
    (track (freshState c) v).min = some v ∧
    (track (freshState c) v).max = some v ∧
    (track (freshState c) v).average = some v ∧
    (track (freshState c) v).current = some v := by
  have h1 : ¬ (c ≤ 0 + 1) := by omega
  refine ⟨?_, ?_, ?_, rfl⟩ <;> simp [track, freshState, h1]

theorem claim_C5_witness :
    ((1 : ℕ) < 2) ∧
    ((track (freshState 2) 7).min = some 7 ∧
     (track (freshState 2) 7).max = some 7 ∧
     (track (freshState 2) 7).average = some 7 ∧
     (track (freshState 2) 7).current = some 7) :=
  ⟨by decide, claim_C5 2 (by decide) 7⟩

/-- C6: once at least `c` samples have been ingested the `dataFull` flag is
true, it is still true after one more `track()` (sticky), and that further
`track()` replaces exactly the oldest element of the chronological
window. -/
theorem claim_C6 (c : ℕ) (hc : 1 ≤ c) (vs : List ℚ) (hlen : c ≤ vs.length) (v : ℚ) :
    (trackAll (freshState c) vs).dataFull = true ∧
    (track (trackAll (freshState c) vs) v).dataFull = true ∧
    window (track (trackAll (freshState c) vs) v) =
      (window (trackAll (freshState c) vs)).drop 1 ++ [v] := by
  obtain ⟨h1, h2, h3, h4, h5⟩ := trackAll_spec c hc vs
  have hf : (trackAll (freshState c) vs).dataFull = true := by rw [h3]; simp [hlen]
  have hcur : (trackAll (freshState c) vs).cursor < (trackAll (freshState c) vs).dataSize := by
    rw [h1, h2]
    exact Nat.mod_lt _ (by omega)
  refine ⟨hf, ?_, ?_⟩
  · rw [track_dataFull_eq _ _ hcur, hf, Bool.true_or]
  · exact window_step_full _ _ (by rw [h1]; exact hc) hcur hf

theorem claim_C6_witness :
    ((1 : ℕ) ≤ 1 ∧ 1 ≤ ([5] : List ℚ).length) ∧
    ((trackAll (freshState 1) [5]).dataFull = true ∧
     (track (trackAll (freshState 1) [5]) 9).dataFull = true ∧
     window (track (trackAll (freshState 1) [5]) 9) =
       (window (trackAll (freshState 1) [5])).drop 1 ++ [9]) :=
  ⟨⟨by decide, by decide⟩, claim_C6 1 (by decide) [5] (by decide) 9⟩

/-- C7: with two value streams of capacity 2, snapshotting `[10, 100]` at
time 1 and `[20, 200]` at time 2 serializes to exactly the text
`"10,20,100,200,1,2,"` (stream-major, time stream last, trailing comma),
and the consumer strips the trailing comma and de-interleaves the tokens
into equal-length per-stream arrays. -/
theorem claim_C7 :
    ((snapshot (freshStore 2 2) [10, 100] 1).bind fun h1 =>
      (snapshot h1 [20, 200] 2).map serialize) = some "10,20,100,200,1,2," ∧
    deinterleave "10,20,100,200,1,2," 3 = [["10", "20"], ["100", "200"], ["1", "2"]] :=
  ⟨by decide, by decide⟩

/-- C8: with capacity 3, tracking 1, 2, 3 gives `min = 1`, `max = 3`,
`average = 2`; tracking 4 next gives `min = 2`, `max = 4`, `average = 3`,
since the ring overwrite evicted the sample 1. -/
theorem claim_C8 :
    (trackAll (freshState 3) [1, 2, 3]).min = some 1 ∧
    (trackAll (freshState 3) [1, 2, 3]).max = some 3 ∧
    (trackAll (freshState 3) [1, 2, 3]).average = some 2 ∧
    (trackAll (freshState 3) [1, 2, 3, 4]).min = some 2 ∧
    (trackAll (freshState 3) [1, 2, 3, 4]).max = some 4 ∧
    (trackAll (freshState 3) [1, 2, 3, 4]).average = some 3 := by
  norm_num [trackAll, track, freshState, List.range']

/-- C9: for every capacity `c ≥ 1` the cursor invariant `cursor < c` holds
on every reachable state and is preserved by a further `track()`, and every
array index accessed by that `track()` call lies within `[0, c)`. -/
theorem claim_C9 (c : ℕ) (hc : 1 ≤ c) (vs : List ℚ) (v : ℚ) :
    (trackAll (freshState c) vs).cursor < c ∧
    (track (trackAll (freshState c) vs) v).cursor < c ∧
    trackTouched (trackAll (freshState c) vs) ⊆ List.range c := by
  obtain ⟨h1, h2, h3, h4, h5⟩ := trackAll_spec c hc vs
  have hcur : (trackAll (freshState c) vs).cursor < c := by
    rw [h2]
    exact Nat.mod_lt _ (by omega)
  refine ⟨hcur, ?_, ?_⟩
  · rw [track_cursor_mod _ _ (by rw [h1]; exact hcur), h1]
    exact Nat.mod_lt _ (by omega)
  · intro i hi
    rw [List.mem_range]
    rw [trackTouched_eq] at hi
    have hj : scanCount (track (trackAll (freshState c) vs) 0) ≤ c := by
      have hb := scanCount_track_le (trackAll (freshState c) vs) 0
      rw [h1] at hb
      exact hb
    simp only [List.mem_cons, List.mem_range'] at hi
    rcases hi with rfl | rfl | ⟨k, hk, rfl⟩
    · exact hcur
    · omega
    · omega

theorem claim_C9_witness :
    ((1 : ℕ) ≤ 1) ∧
    ((trackAll (freshState 1) [4]).cursor < 1 ∧
     (track (trackAll (freshState 1) [4]) 6).cursor < 1 ∧
     trackTouched (trackAll (freshState 1) [4]) ⊆ List.range 1) :=
  ⟨by decide, claim_C9 1 (by decide) [4] 6⟩

/-- C10: the statistics scan of a `track()` call on a reachable state of
positive capacity reads only array cells already written by the current or
an earlier `track()` call: every index below the scan bound holds a written
value. -/
theorem claim_C10 (c : ℕ) (hc : 1 ≤ c) (vs : List ℚ) (v : ℚ) (i : ℕ)
    (hi : i < scanCount (track (trackAll (freshState c) vs) v)) :
    ((track (trackAll (freshState c) vs) v).data i).isSome = true := by
  rw [← trackAll_append_single] at hi ⊢
  obtain ⟨h1, h2, h3, h4, h5⟩ := trackAll_spec c hc (vs ++ [v])
  rw [h5 i]
  have hlen : (vs ++ [v]).length = vs.length + 1 := by simp
  unfold scanCount at hi
  rw [h1, h2, h3, hlen] at hi
  by_cases hcN : c ≤ vs.length + 1
  · rw [min_eq_right (by simp; omega)]
    have hd : decide (c ≤ vs.length + 1) = true := by simp [hcN]
    rw [hd] at hi
    simpa using hi
  · rw [min_eq_left (by simp; omega), hlen]
    have hd : decide (c ≤ vs.length + 1) = false := by simp; omega
    rw [hd] at hi
    simp only [Bool.false_eq_true, if_false] at hi
    rw [Nat.mod_eq_of_lt (by omega)] at hi
    exact hi

theorem claim_C10_witness :
    ((1 : ℕ) ≤ 1 ∧ 0 < scanCount (track (trackAll (freshState 1) []) 5)) ∧
    ((track (trackAll (freshState 1) []) 5).data 0).isSome = true :=
  ⟨⟨by decide, by decide⟩, claim_C10 1 (by decide) [] 5 0 (by decide)⟩

end SensorAmbient
